import Mathlib

/-!
# Verification of the video-tools frame pipelines

Shallow embedding of the Python sources of `achalddave/video-tools`:
annotation queries (`util/annotation.py`), frame-path parsing
(`frame_loader_util.py`), the catalog loader, the resize configuration
check and image loader, the LMDB writer loops of
`frames_to_video_frames_proto_lmdb.py` and
`frames_to_labeled_video_frames_lmdb.py`, and the resume check of
`dump_frames.py`.  Numbers that the Python code stores as floats (times in
seconds, frame rates, durations) are modelled as rationals; Python
exceptions are modelled with `Except`.
-/

namespace VideoTools

/-- Python exceptions that the embedded fragments can raise. -/
inductive PyError where
  | valueError
  | assertionError
  | zeroDivisionError
  | keyError
  deriving DecidableEq, Repr

/-- The `Annotation` namedtuple of `util/annotation.py`. -/
structure Annotation where
  filename : String
  start_frame : ℚ
  end_frame : ℚ
  start_seconds : ℚ
  end_seconds : ℚ
  frames_per_second : ℚ
  category : String
  deriving DecidableEq, Repr

/-- Python's `sorted` on a list of strings (ascending lexicographic order). -/
def sortStrings (l : List String) : List String :=
  List.insertionSort (· ≤ ·) l

/-- Python `sorted(list(set(x)))`: the sorted list of the distinct elements of `x`. -/
def sortedSet (l : List String) : List String :=
  sortStrings l.dedup

/-- Function `collect_frame_labels` from `util/annotation.py` (lines 100-131): collects
the sorted set of categories of the annotations whose interval contains the
converted query point, converting the query frame index either by dividing by
`frames_per_second` or by multiplying by `frame_step`.  Exactly one of the two
conversion arguments must be given (the `assert`), and a zero
`frames_per_second` would raise `ZeroDivisionError` in Python. -/
def collect_frame_labels (file_annotations : List Annotation) (frame_index : ℤ)
    (frames_per_second : Option ℚ) (frame_step : Option ℚ) :
    Except PyError (List String) :=
  if frames_per_second.isNone = frame_step.isNone then
    .error .assertionError
  else
    match frames_per_second, frame_step with
    | some fps, _ =>
        if fps = 0 then .error .zeroDivisionError
        else
          let query_second : ℚ := (frame_index : ℚ) / fps
          .ok (sortedSet ((file_annotations.filter fun a =>
            decide (a.start_seconds ≤ query_second ∧
              query_second ≤ a.end_seconds)).map (·.category)))
    | none, some step =>
        let query_frame : ℚ := (frame_index : ℚ) * step
        .ok (sortedSet ((file_annotations.filter fun a =>
          decide (a.start_frame ≤ query_frame ∧
            query_frame ≤ a.end_frame)).map (·.category)))
    | none, none => .error .assertionError

/-- Function `collect_frame_labels` as duplicated in
`frames_to_labeled_video_frames_lmdb.py` (lines 38-55).  Unlike the copy in
`util/annotation.py`, the interval test is strict at both ends:
`start_seconds < query_second < end_seconds`. -/
def labeled_collect_frame_labels (file_annotations : List Annotation)
    (frame_index : ℤ) (frames_per_second : ℚ) : Except PyError (List String) :=
  if frames_per_second = 0 then .error .zeroDivisionError
  else
    let query_second : ℚ := (frame_index : ℚ) / frames_per_second
    .ok (sortedSet ((file_annotations.filter fun a =>
      decide (a.start_seconds < query_second ∧
        query_second < a.end_seconds)).map (·.category)))

/-- A sample annotation: category `"run"` over seconds `[1, 2]`
(frames `[10, 20]`) of video `"v"`. -/
def sampleAnnotation : Annotation :=
  { filename := "v", start_frame := 10, end_frame := 20, start_seconds := 1,
    end_seconds := 2, frames_per_second := 30, category := "run" }

/-- Index (from the left) of the last occurrence of `c` in `l`, if any;
mirrors Python's `str.rfind` (which returns `-1` when absent, modelled here
by `none`). -/
def lastIndexOf (c : Char) : List Char → Option Nat
  | [] => none
  | x :: xs =>
    match lastIndexOf c xs with
    | some i => some (i + 1)
    | none => if x = c then some 0 else none

/-- Python's `str.rstrip('/')`: remove trailing slashes. -/
def rstripSlashes (l : List Char) : List Char :=
  (l.reverse.dropWhile (· = '/')).reverse

/-- Python `posixpath.split`: split a path at the last slash.  The head keeps its
trailing slashes only when it consists solely of slashes. -/
def pySplit (p : List Char) : List Char × List Char :=
  match lastIndexOf '/' p with
  | none => ([], p)
  | some i =>
    let head := p.take (i + 1)
    let tail := p.drop (i + 1)
    if head.all (· = '/') then (head, tail) else (rstripSlashes head, tail)

/-- The stem (first component) of `posixpath.splitext` for a file name that
contains no slash: split off the extension at the last dot, unless the name
up to that dot consists entirely of dots. -/
def pySplitextStem (name : List Char) : List Char :=
  match lastIndexOf '.' name with
  | none => name
  | some d => if (name.take d).all (· = '.') then name else name.take d

/-- Python `int` applied to a non-empty string of decimal digits. -/
def digitsToNat (digits : List Char) : Nat :=
  digits.foldl (fun acc c => 10 * acc + (c.toNat - 48)) 0

/-- The `video_name` local of `parse_frame_path`:
`path.split(path.split(frame_path)[0])[1]`. -/
def framePathVideoName (frame_path : String) : List Char :=
  (pySplit (pySplit frame_path.data).1).2

/-- The `frame_name` local of `parse_frame_path`:
`path.splitext(path.split(frame_path)[1])[0]`. -/
def framePathStem (frame_path : String) : List Char :=
  pySplitextStem (pySplit frame_path.data).2

/-- Function `parse_frame_path` from `frame_loader_util.py` (lines 59-74), with the
default prefix `'frame'`.  Returns `none` when the video directory segment is
empty or the stem does not match the regex `^frame([0-9]*)$`; because the
digit group of that regex may be empty, a stem that is exactly `frame` makes
`int('')` raise a `ValueError`. -/
def parse_frame_path (frame_path : String) :
    Except PyError (Option (String × Nat)) :=
  let frame_name := framePathStem frame_path
  let video_name := framePathVideoName frame_path
  if video_name = [] then .ok none
  else if frame_name.take 5 = "frame".data ∧
      (frame_name.drop 5).all (·.isDigit) then
    if frame_name.drop 5 = [] then .error .valueError
    else .ok (some (⟨video_name⟩, digitsToNat (frame_name.drop 5)))
  else .ok none

/-- Function `frame_path_to_key` from `frame_loader_util.py` (lines 77-90):
`'{}-{}'.format(video_name, frame_number)` on a successful parse. -/
def frame_path_to_key (frame_path : String) : Except PyError (Option String) :=
  match parse_frame_path frame_path with
  | .error e => .error e
  | .ok none => .ok none
  | .ok (some (v, n)) => .ok (some (v ++ "-" ++ toString n))

/-- Assignment into a Python dict modelled as an association list: an
existing key is overwritten in place, a fresh key is appended. -/
def pyDictInsert {β : Type} (d : List (String × β)) (k : String) (v : β) :
    List (String × β) :=
  if d.any (·.1 = k) then
    d.map (fun p => if p.1 = k then (k, v) else p)
  else d ++ [(k, v)]

/-- The `label_ids` dict built by `load_label_ids` from parsed catalog lines
`(label_id, label)`: `label_ids[label] = int(label_id)`, minus 1 when the
ids are declared one-indexed. -/
def labelDict (entries : List (Int × String)) (one_indexed_labels : Bool) :
    List (String × Int) :=
  entries.foldl (fun d e =>
    pyDictInsert d e.2 (if one_indexed_labels then e.1 - 1 else e.1)) []

/-- Python's `sorted` on a list of integers. -/
def sortInts (l : List Int) : List Int := List.insertionSort (· ≤ ·) l

/-- Python 2's `range(n)`, a list of ints `[0, ..., n-1]`. -/
def intRange (n : Nat) : List Int :=
  (List.range n).map (fun (m : Nat) => (m : Int))

/-- Function `load_label_ids` from `util/annotation.py` (lines 134-160), starting from
the parsed catalog lines: builds the label dict and then asserts
`sorted(label_ids.values()) == range(len(label_ids))` (`AssertionError`
otherwise). -/
def load_label_ids (entries : List (Int × String))
    (one_indexed_labels : Bool) : Except PyError (List (String × Int)) :=
  let label_ids := labelDict entries one_indexed_labels
  if sortInts (label_ids.map (·.2)) = intRange label_ids.length then
    .ok label_ids
  else .error .assertionError

/-- A catalog whose line `i` (0-indexed) holds id `i + 1`: the one-indexed
id range `{1, ..., N}`. -/
def oneIndexedCatalog (labels : List String) : List (Int × String) :=
  labels.enum.map (fun p => ((p.1 : Int) + 1, p.2))

/-- The grouped annotation index built by `load_annotations_json`: one entry
per distinct filename (in order of first appearance), carrying the
annotations of that file in input order (`defaultdict(list)` plus
`append`). -/
def annotationIndex (annotations_list : List Annotation) :
    List (String × List Annotation) :=
  ((annotations_list.map (·.filename)).dedup).map
    (fun f => (f, annotations_list.filter (·.filename = f)))

/-- Function `filter_annotations_by_category` from `util/annotation.py`
(lines 45-72): keep, per file, only the annotations of `category`, dropping
files whose filtered list is empty. -/
def filter_annotations_by_category
    (annotations : List (String × List Annotation)) (category : String) :
    List (String × List Annotation) :=
  (annotations.map
    (fun p => (p.1, p.2.filter (·.category = category)))).filter
      (fun p => !p.2.isEmpty)

/-- Function `load_annotations_json` from `util/annotation.py` (lines 14-42), starting
from the decoded annotation list: group by filename, optionally filter by
category, and raise `ValueError` when a filter category is given and the
filtered index is empty. -/
def load_annotations_json (annotations_list : List Annotation)
    (filter_category : Option String) :
    Except PyError (List (String × List Annotation)) :=
  let annotations := annotationIndex annotations_list
  match filter_category with
  | none => .ok annotations
  | some c =>
    let filtered := filter_annotations_by_category annotations c
    if filtered.isEmpty then .error .valueError else .ok filtered

/-- Python truthiness of an optional integer argument: `None` and `0` are
falsy, every other integer is truthy. -/
def truthyInt : Option Int → Bool
  | none => false
  | some v => v != 0

/-- Image dimensions tracked by the embedding of `load_image`. -/
structure PyImage where
  height : Int
  width : Int
  deriving DecidableEq, Repr

/-- Function `load_image` from `frame_loader_util.py` (lines 9-32) (duplicated in
`frames_to_labeled_video_frames_lmdb.py` lines 98-122), dimensions only:
`image.resize((resize_width, resize_height))` runs only when both arguments
are truthy — not `None` and not `0`. -/
def load_image (img : PyImage) (resize_height resize_width : Option Int) :
    PyImage :=
  if truthyInt resize_height && truthyInt resize_width then
    { height := resize_height.getD 0, width := resize_width.getD 0 }
  else img

/-- The resize-argument check at the top of `main`
(`frames_to_labeled_video_frames_lmdb.py` lines 182-184): supplying exactly
one of `--resize_width`/`--resize_height` raises `ValueError`. -/
def checkResizeArgs (resize_width resize_height : Option Int) :
    Except PyError Unit :=
  if resize_width.isNone ≠ resize_height.isNone then .error .valueError
  else .ok ()

/-- The decoding prefix of `main`: the resize-argument check runs before any
frame is decoded; afterwards every frame is decoded with `load_image`. -/
def mainLoadImages (resize_width resize_height : Option Int)
    (imgs : List PyImage) : Except PyError (List PyImage) :=
  match checkResizeArgs resize_width resize_height with
  | .error e => .error e
  | .ok _ =>
    .ok (imgs.map (fun im => load_image im resize_height resize_width))

/-- A key/value store with last-write-wins `put`: the behaviour of an LMDB
write transaction (`lmdb_transaction.put(key, value)`). -/
def storePut {β : Type} (store : List (String × β)) (k : String) (v : β) :
    List (String × β) :=
  pyDictInsert store k v

/-- Store lookup: the value of the first (hence, with unique keys, the only)
entry for `k`. -/
def storeLookup {β : Type} (store : List (String × β)) (k : String) :
    Option β :=
  (store.find? (·.1 = k)).map (·.2)

/-- A sequence of `put`s applied in order. -/
def applyPuts {β : Type} (store : List (String × β))
    (ws : List (String × β)) : List (String × β) :=
  ws.foldl (fun s w => storePut s w.1 w.2) store

/-- The last value written for key `k` in a sequence of `put`s, if any. -/
def lastPut {β : Type} (ws : List (String × β)) (k : String) : Option β :=
  ws.foldl (fun acc w => if w.1 = k then some w.2 else acc) none

/-- One transaction batch of the writer loop of
`frames_to_video_frames_proto_lmdb.py` `main` (lines 149-165): in each
iteration the counter `num_stored` is incremented and tested against
`num_paths` BEFORE the queue item is taken and written.  Returns the new
store, the remaining queue, the new counter, and the `loaded_images` flag;
`none` models blocking forever in `queue.get()` on an exhausted queue. -/
def protoBatch {α β : Type} (mk : α → String × β) :
    Nat → List α → Nat → Nat → List (String × β) →
    Option (List (String × β) × List α × Nat × Bool)
  | 0, queue, num_stored, _, store => some (store, queue, num_stored, false)
  | iters + 1, queue, num_stored, num_paths, store =>
    let num_stored' := num_stored + 1
    if num_stored' ≥ num_paths then some (store, queue, num_stored', true)
    else
      match queue with
      | [] => none
      | item :: rest =>
        let r := mk item
        protoBatch mk iters rest num_stored' num_paths
          (storePut store r.1 r.2)

/-- One transaction batch of the writer loop of
`frames_to_labeled_video_frames_lmdb.py` `main` (lines 211-235): each
iteration takes a queue item, writes it, and only then increments and tests
the counter. -/
def labeledBatch {α β : Type} (mk : α → String × β) :
    Nat → List α → Nat → Nat → List (String × β) →
    Option (List (String × β) × List α × Nat × Bool)
  | 0, queue, num_stored, _, store => some (store, queue, num_stored, false)
  | iters + 1, queue, num_stored, num_paths, store =>
    match queue with
    | [] => none
    | item :: rest =>
      let r := mk item
      let store' := storePut store r.1 r.2
      let num_stored' := num_stored + 1
      if num_stored' ≥ num_paths then some (store', rest, num_stored', true)
      else labeledBatch mk iters rest num_stored' num_paths store'

/-- The outer `while True` of both writer `main`s: run one transaction batch,
stop when `loaded_images` was set.  `fuel` bounds the number of
transactions. -/
def writerLoop {α β : Type}
    (batch : Nat → List α → Nat → Nat → List (String × β) →
      Option (List (String × β) × List α × Nat × Bool))
    (batch_size : Nat) :
    Nat → List α → Nat → Nat → List (String × β) →
    Option (List (String × β))
  | 0, _, _, _, _ => none
  | fuel + 1, queue, num_stored, num_paths, store =>
    match batch batch_size queue num_stored num_paths store with
    | none => none
    | some (store', queue', num_stored', loaded) =>
      if loaded then some store'
      else writerLoop batch batch_size fuel queue' num_stored' num_paths
        store'

/-- The writer of `frames_to_video_frames_proto_lmdb.py` `main`: batch size
5000, counter starting at 0. -/
def protoWriterRun {α β : Type} (mk : α → String × β) (queue : List α)
    (num_paths : Nat) (store : List (String × β)) :
    Option (List (String × β)) :=
  writerLoop (protoBatch mk) 5000 (num_paths + 1) queue 0 num_paths store

/-- The writer of `frames_to_labeled_video_frames_lmdb.py` `main`: batch
size 10000, counter starting at 0. -/
def labeledWriterRun {α β : Type} (mk : α → String × β) (queue : List α)
    (num_paths : Nat) (store : List (String × β)) :
    Option (List (String × β)) :=
  writerLoop (labeledBatch mk) 10000 (num_paths + 1) queue 0 num_paths store

/-- The store-independent part of `labeledBatch`: the sequence of `put`s it
performs, with the remaining queue, counter, and flag. -/
def labeledBatchWrites {α β : Type} (mk : α → String × β) :
    Nat → List α → Nat → Nat →
    Option (List (String × β) × List α × Nat × Bool)
  | 0, queue, num_stored, _ => some ([], queue, num_stored, false)
  | iters + 1, queue, num_stored, num_paths =>
    match queue with
    | [] => none
    | item :: rest =>
      let num_stored' := num_stored + 1
      if num_stored' ≥ num_paths then
        some ([mk item], rest, num_stored', true)
      else
        (labeledBatchWrites mk iters rest num_stored' num_paths).map
          (fun r => (mk item :: r.1, r.2))

/-- The store-independent part of `writerLoop`: the concatenated `put`
sequence of all batches until `loaded_images`. -/
def writerLoopWrites {α β : Type}
    (batchWrites : Nat → List α → Nat → Nat →
      Option (List (String × β) × List α × Nat × Bool))
    (batch_size : Nat) :
    Nat → List α → Nat → Nat → Option (List (String × β))
  | 0, _, _, _ => none
  | fuel + 1, queue, num_stored, num_paths =>
    match batchWrites batch_size queue num_stored num_paths with
    | none => none
    | some (ws, queue', num_stored', loaded) =>
      if loaded then some ws
      else (writerLoopWrites batchWrites batch_size fuel queue' num_stored'
        num_paths).map (fun tail => ws ++ tail)

/-- The `put` sequence of a whole labeled-writer run. -/
def labeledRunWrites {α β : Type} (mk : α → String × β) (queue : List α)
    (num_paths : Nat) : Option (List (String × β)) :=
  writerLoopWrites (labeledBatchWrites mk) 10000 (num_paths + 1) queue 0
    num_paths

/-- The `VideoFrame` record of `frames_to_video_frames_proto_lmdb.py`
(`create_video_frame`, lines 38-44). -/
structure VideoFrame where
  video_name : String
  frame_index : Nat
  image : PyImage
  deriving DecidableEq, Repr

/-- Function `create_video_frame` from `frames_to_video_frames_proto_lmdb.py`. -/
def create_video_frame (video_name : String) (frame_index : Nat)
    (image : PyImage) : VideoFrame :=
  { video_name := video_name, frame_index := frame_index, image := image }

/-- The `LabeledVideoFrame` record of
`frames_to_labeled_video_frames_lmdb.py`: frame data plus `(name, id)`
labels. -/
structure LabeledVideoFrame where
  video_name : String
  frame_index : Nat
  labels : List (String × Int)
  image : PyImage
  deriving DecidableEq, Repr

/-- Function `create_labeled_frame` from `frames_to_labeled_video_frames_lmdb.py`
(lines 58-68): attach each label name together with its catalog id. -/
def create_labeled_frame (video_name : String) (frame_index : Nat)
    (image : PyImage) (labels : List String) (label_ids : String → Int) :
    LabeledVideoFrame :=
  { video_name := video_name, frame_index := frame_index,
    labels := labels.map (fun name => (name, label_ids name)),
    image := image }

/-- The loop body of the proto writer for one dequeued `(frame_path, image)`
item: look up `(video_name, frame_index)` in `frame_path_info`, build the
record, and format the store key `'{}-{}'`. -/
def mkVideoFrameRecord (info : String → String × Nat)
    (item : String × PyImage) : String × VideoFrame :=
  let vi := info item.1
  (vi.1 ++ "-" ++ toString vi.2, create_video_frame vi.1 vi.2 item.2)

/-- The loop body of the labeled writer for one dequeued
`(frame_path, image)` item: look up `(video_name, frame_index)`, collect the
strict-boundary labels at `frame_index - 1`, build the labeled record, and
format the store key.  The per-run `frames_per_second` is assumed non-zero,
so the `ZeroDivisionError` branch of the label query is defaulted away. -/
def mkLabeledRecord (annotations : String → List Annotation) (fps : ℚ)
    (info : String → String × Nat) (label_ids : String → Int)
    (item : String × PyImage) : String × LabeledVideoFrame :=
  let vi := info item.1
  let labels := (labeled_collect_frame_labels (annotations vi.1)
    ((vi.2 : ℤ) - 1) fps).toOption.getD []
  (vi.1 ++ "-" ++ toString vi.2,
    create_labeled_frame vi.1 vi.2 item.2 labels label_ids)

/-- The `frame_path_info` lookup of both writer `main`s, built with
`parse_frame_path` (all paths of the end-to-end scenario parse
successfully, so the fallback is never taken). -/
def scenarioInfo (p : String) : String × Nat :=
  match parse_frame_path p with
  | .ok (some vi) => vi
  | _ => ("", 0)

/-- The end-to-end scenario queue: 2 videos, `A` with 3 frames and `B` with
2 frames, in enumeration order. -/
def scenarioQueue : List (String × PyImage) :=
  [("/data/A/frame1.png", { height := 3, width := 4 }),
   ("/data/A/frame2.png", { height := 3, width := 4 }),
   ("/data/A/frame3.png", { height := 3, width := 4 }),
   ("/data/B/frame1.png", { height := 3, width := 4 }),
   ("/data/B/frame2.png", { height := 3, width := 4 })]

/-- The end-to-end scenario annotations: category `"run"` over the first
two frames of video `A` (seconds `[0, 0.1]` at 10 fps). -/
def scenarioAnnotations (video_name : String) : List Annotation :=
  if video_name = "A" then
    [{ filename := "A", start_frame := 1, end_frame := 2,
       start_seconds := 0, end_seconds := 1/10, frames_per_second := 10,
       category := "run" }]
  else []

/-- The end-to-end scenario label catalog: `"run"` has id 0. -/
def scenarioLabelIds (_label : String) : Int := 0

/-- The observable filesystem state used by `frames_already_dumped`: the
parsed content of the metadata file at `expected_info_path` (`none` when the
file is missing), existence of the output frame file of each index of
`expected_name_format`, and absolute-path resolution. -/
structure DumpState where
  info_file : Option (ℚ × String)
  frame_exists : Nat → Bool
  abspath : String → String

/-- The number of output frames `frames_already_dumped` expects:
`int(math.floor(expected_duration * expected_frames_per_second) - 1)`,
clamped at zero like the empty Python `range`. -/
def expectedFrameCount (fps duration : ℚ) : Nat :=
  (⌊duration * fps⌋ - 1).toNat

/-- The frame-index offset of `frames_already_dumped`: `1` when the 0th
frame is absent (one-indexed moviepy dumps), `0` otherwise. -/
def frameOffset (st : DumpState) : Nat :=
  if st.frame_exists 0 then 0 else 1

/-- Function `frames_already_dumped` from `dump_frames.py` (lines 17-74): the info
marker must exist, record the requested rate and the absolute source path,
and every expected output frame must exist. -/
def frames_already_dumped (st : DumpState) (video_path : String)
    (expected_frames_per_second : ℚ) (expected_duration : ℚ) : Bool :=
  match st.info_file with
  | none => false
  | some info =>
    if info.1 = expected_frames_per_second ∧
        info.2 = st.abspath video_path then
      let offset := frameOffset st
      let expected := (List.range (expectedFrameCount
        expected_frames_per_second expected_duration)).map (· + offset)
      let missing := expected.filter (fun i => !st.frame_exists i)
      missing.isEmpty
    else false

/-- A concrete dump state: a valid info marker for `/abs/v.mp4` at 1 fps,
with one-indexed frames 1 and 2 present. -/
def sampleDumpState : DumpState :=
  { info_file := some (1, "/abs/v.mp4"),
    frame_exists := fun i => decide (1 ≤ i ∧ i ≤ 2),
    abspath := fun _ => "/abs/v.mp4" }

/-- The `sortedSet` output is sorted. -/
theorem sortedSet_sorted (l : List String) :
    (sortedSet l).Sorted (· ≤ ·) :=
  List.sorted_insertionSort _ _

/-- The `sortedSet` output has no duplicates. -/
theorem sortedSet_nodup (l : List String) : (sortedSet l).Nodup :=
  (List.perm_insertionSort _ _).nodup_iff.mpr l.nodup_dedup

/-- The `sortedSet` output has the same members as its input. -/
theorem sortedSet_mem (l : List String) (c : String) :
    c ∈ sortedSet l ↔ c ∈ l :=
  (List.perm_insertionSort _ _).mem_iff.trans (List.mem_dedup)

/-- Membership in the filtered-and-collected label list, fps mode. -/
theorem collect_frame_labels_fps_run (anns : List Annotation) (i : ℤ)
    (fps : ℚ) (hfps : fps ≠ 0) :
    collect_frame_labels anns i (some fps) none =
      .ok (sortedSet ((anns.filter fun a =>
        decide (a.start_seconds ≤ (i : ℚ) / fps ∧
          (i : ℚ) / fps ≤ a.end_seconds)).map (·.category))) := by
  simp [collect_frame_labels, hfps]

/-- Membership in the filtered-and-collected label list, frame-step mode. -/
theorem collect_frame_labels_step_run (anns : List Annotation) (i : ℤ)
    (step : ℚ) :
    collect_frame_labels anns i none (some step) =
      .ok (sortedSet ((anns.filter fun a =>
        decide (a.start_frame ≤ (i : ℚ) * step ∧
          (i : ℚ) * step ≤ a.end_frame)).map (·.category))) := by
  simp [collect_frame_labels]

/-- Categories of a filtered annotation list, membership characterization. -/
theorem mem_collected_labels (anns : List Annotation) (p : Annotation → Prop)
    [DecidablePred p] (c : String) :
    (c ∈ sortedSet ((anns.filter fun a => decide (p a)).map (·.category)) ↔
      ∃ a ∈ anns, a.category = c ∧ p a) := by
  rw [sortedSet_mem]
  constructor
  · intro hc
    rcases List.mem_map.mp hc with ⟨a, ha, hcat⟩
    rcases List.mem_filter.mp ha with ⟨hmem, hp⟩
    exact ⟨a, hmem, hcat, of_decide_eq_true hp⟩
  · rintro ⟨a, hmem, hcat, hp⟩
    exact List.mem_map.mpr ⟨a, List.mem_filter.mpr ⟨hmem, decide_eq_true hp⟩,
      hcat⟩

/-- C1: For every list of annotations and query frame index,
`collect_frame_labels` in `util/annotation.py` returns the sorted,
duplicate-free list of the categories of exactly those annotations whose
interval contains the converted query point, with both boundaries inclusive
(`start <= query <= end`), in both the frames-per-second and the frame-step
conversion modes.  (Amended from the claim: the duplicated copy of
`collect_frame_labels` in `frames_to_labeled_video_frames_lmdb.py` instead
uses a strict boundary test; see the counterexample.) -/
theorem collect_frame_labels_boundary_inclusive :
    (∀ (anns : List Annotation) (i : ℤ) (fps : ℚ), fps ≠ 0 →
      ∃ l, collect_frame_labels anns i (some fps) none = .ok l ∧
        l.Sorted (· ≤ ·) ∧ l.Nodup ∧
        (∀ c, c ∈ l ↔ ∃ a ∈ anns, a.category = c ∧
          a.start_seconds ≤ (i : ℚ) / fps ∧ (i : ℚ) / fps ≤ a.end_seconds)) ∧
    (∀ (anns : List Annotation) (i : ℤ) (step : ℚ),
      ∃ l, collect_frame_labels anns i none (some step) = .ok l ∧
        l.Sorted (· ≤ ·) ∧ l.Nodup ∧
        (∀ c, c ∈ l ↔ ∃ a ∈ anns, a.category = c ∧
          a.start_frame ≤ (i : ℚ) * step ∧ (i : ℚ) * step ≤ a.end_frame)) := by
  constructor
  · intro anns i fps hfps
    exact ⟨_, collect_frame_labels_fps_run anns i fps hfps,
      sortedSet_sorted _, sortedSet_nodup _,
      fun c => mem_collected_labels anns _ c⟩
  · intro anns i step
    exact ⟨_, collect_frame_labels_step_run anns i step,
      sortedSet_sorted _, sortedSet_nodup _,
      fun c => mem_collected_labels anns _ c⟩

/-- C1 witness: the boundary-inclusive theorem instantiated at one
annotation (seconds interval `[1, 2]`), query frame 1 at 1 fps, so the query
second equals the annotation's `start_seconds`. -/
theorem collect_frame_labels_boundary_inclusive_witness :
    ∃ l, collect_frame_labels [ sampleAnnotation] 1 (some 1) none = .ok l ∧
      l.Sorted (· ≤ ·) ∧ l.Nodup ∧
      (∀ c, c ∈ l ↔ ∃ a ∈ [ sampleAnnotation], a.category = c ∧
        a.start_seconds ≤ (1 : ℚ) / 1 ∧ (1 : ℚ) / 1 ≤ a.end_seconds) :=
  collect_frame_labels_boundary_inclusive.1 [ sampleAnnotation] 1 1
    one_ne_zero

/-- C1 counterexample: the copy of `collect_frame_labels` in
`frames_to_labeled_video_frames_lmdb.py` uses a strict interval test, so a
query second exactly equal to `start_seconds` is NOT included: for the sample
annotation (`category "run"`, seconds `[1, 2]`) and query second `1/1 = 1`,
the code returns `[]` even though the annotation's closed interval contains
the query point — the claim would require `["run"]`. -/
theorem labeled_collect_frame_labels_boundary_exclusive :
    labeled_collect_frame_labels [ sampleAnnotation] 1 1 = .ok [] ∧
    sampleAnnotation.start_seconds ≤ (1 : ℚ) / 1 ∧
    (1 : ℚ) / 1 ≤ sampleAnnotation.end_seconds ∧
    sampleAnnotation.category = "run" := by
  refine ⟨by simp [labeled_collect_frame_labels, sampleAnnotation, sortedSet,
    sortStrings], by norm_num [ sampleAnnotation], by
    norm_num [ sampleAnnotation], rfl⟩

/-- Absent characters have no last index. -/
theorem lastIndexOf_eq_none (c : Char) (l : List Char) (h : c ∉ l) :
    lastIndexOf c l = none := by
  induction l with
  | nil => rfl
  | cons x xs ih =>
    rw [List.mem_cons, not_or] at h
    simp [lastIndexOf, ih h.2, Ne.symm h.1]

/-- Appending characters other than `c` does not change the last index. -/
theorem lastIndexOf_append_right (c : Char) (xs ys : List Char)
    (h : c ∉ ys) : lastIndexOf c (xs ++ ys) = lastIndexOf c xs := by
  induction xs with
  | nil => simpa using lastIndexOf_eq_none c ys h
  | cons x xs ih => cases hx : lastIndexOf c xs <;>
      simp [lastIndexOf, ih, hx]

/-- The last index of `c` in `xs ++ c :: ys` with `c ∉ ys` is `xs.length`. -/
theorem lastIndexOf_append_last (c : Char) (xs ys : List Char)
    (h : c ∉ ys) : lastIndexOf c (xs ++ c :: ys) = some xs.length := by
  induction xs with
  | nil => simp [lastIndexOf, lastIndexOf_eq_none c ys h]
  | cons x xs ih => simp [lastIndexOf, ih]

/-- A trailing non-slash character stops `rstrip('/')`. -/
theorem rstripSlashes_concat (l : List Char) (c : Char) (hc : c ≠ '/') :
    rstripSlashes (l ++ [c]) = l ++ [c] := by
  simp [rstripSlashes, List.dropWhile_cons, hc]

/-- Python `rstrip('/')` removes a final slash guarded by a non-slash character. -/
theorem rstripSlashes_concat_slash (l : List Char) (c : Char) (hc : c ≠ '/') :
    rstripSlashes (l ++ [c, '/']) = l ++ [c] := by
  simp [rstripSlashes, List.dropWhile_cons, hc]

/-- Python `rstrip('/')` of `l ++ "/"` returns `l` when `l` does not itself end in
a slash. -/
theorem rstripSlashes_of_getLast_ne (l : List Char) (hl : l ≠ [])
    (h : l.getLast hl ≠ '/') : rstripSlashes (l ++ ['/']) = l := by
  conv_lhs => rw [← List.dropLast_append_getLast hl]
  rw [List.append_assoc]
  have : [l.getLast hl] ++ ['/'] = [l.getLast hl, '/'] := rfl
  rw [this, rstripSlashes_concat_slash _ _ h]
  exact List.dropLast_append_getLast hl

/-- Python `posixpath.split` of `dir ++ "/" ++ name` with a slash-free, non-empty
last directory component `video` at the end of `dir`: the head is `dir`
without its trailing slash and the tail is `name`. -/
theorem pySplit_wellformed (root video name : List Char) (hv : video ≠ [])
    (hvs : '/' ∉ video) (hns : '/' ∉ name) :
    pySplit ((root ++ '/' :: video) ++ '/' :: name) =
      (root ++ '/' :: video, name) := by
  have hlast : lastIndexOf '/' ((root ++ '/' :: video) ++ '/' :: name) =
      some (root ++ '/' :: video).length :=
    lastIndexOf_append_last '/' (root ++ '/' :: video) name hns
  have hassoc : (root ++ '/' :: video) ++ '/' :: name =
      ((root ++ '/' :: video) ++ ['/']) ++ name := by simp
  have hlen : ((root ++ '/' :: video) ++ ['/']).length =
      (root ++ '/' :: video).length + 1 := by simp; omega
  have htake : ((root ++ '/' :: video) ++ '/' :: name).take
      ((root ++ '/' :: video).length + 1) = (root ++ '/' :: video) ++ ['/'] := by
    rw [hassoc]; exact List.take_left' hlen
  have hdrop : ((root ++ '/' :: video) ++ '/' :: name).drop
      ((root ++ '/' :: video).length + 1) = name := by
    rw [hassoc]; exact List.drop_left' hlen
  have hlastmem : video.getLast hv ∈ video := List.getLast_mem hv
  have hlastne : video.getLast hv ≠ '/' := fun h => hvs (h ▸ hlastmem)
  have hnotall : ¬ (((root ++ '/' :: video) ++ ['/']).all (· = '/') = true) := by
    intro hall
    exact hlastne (by
      have := List.all_eq_true.mp hall (video.getLast hv) (by simp [hlastmem])
      simpa using this)
  have hne : root ++ '/' :: video ≠ [] := by simp
  have hgl : (root ++ '/' :: video).getLast hne = video.getLast hv := by
    rw [List.getLast_append' root ('/' :: video) (by simp)]
    exact List.getLast_cons hv
  have hstrip : rstripSlashes ((root ++ '/' :: video) ++ ['/']) =
      root ++ '/' :: video :=
    rstripSlashes_of_getLast_ne _ hne (hgl ▸ hlastne)
  rw [pySplit, hlast]
  simp only [htake, hdrop]
  rw [if_neg hnotall, hstrip]

/-- The second component of `posixpath.split` of `root ++ "/" ++ video` with
`video` slash-free is `video`. -/
theorem pySplit_snd (root video : List Char) (hvs : '/' ∉ video) :
    (pySplit (root ++ '/' :: video)).2 = video := by
  have hlast : lastIndexOf '/' (root ++ '/' :: video) = some root.length :=
    lastIndexOf_append_last '/' root video hvs
  have hassoc : root ++ '/' :: video = (root ++ ['/']) ++ video := by simp
  have hlen : (root ++ ['/']).length = root.length + 1 := by simp
  have hdrop : (root ++ '/' :: video).drop (root.length + 1) = video := by
    rw [hassoc]; exact List.drop_left' hlen
  rw [pySplit, hlast]
  by_cases hall : ((root ++ '/' :: video).take (root.length + 1)).all
      (· = '/') = true <;> simp [hall, hdrop]

/-- Python `posixpath.splitext` of `stem ++ "." ++ ext` with a dot-free extension
and a stem that is not entirely dots returns `stem`. -/
theorem pySplitextStem_wellformed (stem ext : List Char)
    (hed : '.' ∉ ext) (hstem : ¬ (stem.all (· = '.') = true)) :
    pySplitextStem (stem ++ '.' :: ext) = stem := by
  have hlast : lastIndexOf '.' (stem ++ '.' :: ext) = some stem.length :=
    lastIndexOf_append_last '.' stem ext hed
  have htake : (stem ++ '.' :: ext).take stem.length = stem :=
    List.take_left stem _
  rw [pySplitextStem, hlast]
  simp only [htake]
  rw [if_neg hstem]

/-- Function `parse_frame_path` on a well-formed frame path
`root ++ "/" ++ video ++ "/frame" ++ digits ++ "." ++ ext`: parses to
`(video, int(digits))` when the digit run is non-empty, and raises
`ValueError` (from `int('')`) when the digit run is empty. -/
theorem parse_frame_path_wellformed (root video digits ext : List Char)
    (hv : video ≠ []) (hvs : '/' ∉ video)
    (hd : digits.all (·.isDigit) = true) (hes : '/' ∉ ext) (hed : '.' ∉ ext) :
    parse_frame_path ⟨(root ++ '/' :: video) ++ '/' ::
        (("frame".data ++ digits) ++ '.' :: ext)⟩ =
      if digits = [] then .error .valueError
      else .ok (some (⟨video⟩, digitsToNat digits)) := by
  have hdigchar : ∀ c ∈ digits, c.isDigit = true := List.all_eq_true.mp hd
  have hfs : '/' ∉ ("frame".data ++ digits) ++ '.' :: ext := by
    intro hmem
    simp only [List.mem_append, List.mem_cons] at hmem
    rcases hmem with (h1 | h2) | h3 | h4
    · revert h1; decide
    · exact absurd (hdigchar _ h2) (by decide)
    · exact absurd h3 (by decide)
    · exact hes h4
  have hsplit := pySplit_wellformed root video
    (("frame".data ++ digits) ++ '.' :: ext) hv hvs hfs
  have hstem : pySplitextStem (("frame".data ++ digits) ++ '.' :: ext) =
      "frame".data ++ digits := by
    apply pySplitextStem_wellformed _ _ hed
    intro hall
    have hf := List.all_eq_true.mp hall 'f'
      (List.mem_append_left _ (by decide))
    revert hf; decide
  have hmk : (⟨(root ++ '/' :: video) ++ '/' ::
      (("frame".data ++ digits) ++ '.' :: ext)⟩ : String).data =
      (root ++ '/' :: video) ++ '/' ::
        (("frame".data ++ digits) ++ '.' :: ext) := rfl
  have hname : framePathStem ⟨(root ++ '/' :: video) ++ '/' ::
      (("frame".data ++ digits) ++ '.' :: ext)⟩ = "frame".data ++ digits := by
    rw [framePathStem, hmk, hsplit]
    exact hstem
  have hvid : framePathVideoName ⟨(root ++ '/' :: video) ++ '/' ::
      (("frame".data ++ digits) ++ '.' :: ext)⟩ = video := by
    rw [framePathVideoName, hmk, hsplit]
    exact pySplit_snd root video hvs
  have hlen5 : ("frame".data : List Char).length = 5 := rfl
  rw [parse_frame_path, hname, hvid, if_neg hv,
    if_pos ⟨List.take_left' hlen5, by rw [List.drop_left' hlen5]; exact hd⟩,
    List.drop_left' hlen5]

/-- A leading `'0'` contributes nothing to the parsed integer. -/
theorem digitsToNat_cons_zero (digits : List Char) :
    digitsToNat ('0' :: digits) = digitsToNat digits := rfl

/-- Python's `int` discards leading zeros. -/
theorem digitsToNat_replicate_zero_append (k : Nat) (digits : List Char) :
    digitsToNat (List.replicate k '0' ++ digits) = digitsToNat digits := by
  induction k with
  | zero => rfl
  | succ k ih =>
      rw [List.replicate_succ, List.cons_append, digitsToNat_cons_zero, ih]

/-- An all-zero digit run parses to `0`. -/
theorem digitsToNat_replicate_zero (k : Nat) :
    digitsToNat (List.replicate k '0') = 0 := by
  have := digitsToNat_replicate_zero_append k []
  simpa using this

/-- C3 (amended): every path of the form `<root>/<video>/frame<digits>.<ext>`
with a non-empty, slash-free video segment and a non-empty digit run parses
to `(video, int(digits))`; a path whose video directory name is empty or
whose stem does not match the `frame`-prefix-plus-digits pattern is excluded
silently (`None`, no exception); but — contrary to the claim — a path of the
form `<root>/<video>/frame.<ext>`, whose stem is exactly the prefix with an
EMPTY digit run, matches the regex `^frame([0-9]*)$` and makes `int('')`
raise a `ValueError` instead of being excluded silently. -/
theorem parse_frame_path_spec :
    (∀ root video digits ext : List Char, video ≠ [] → '/' ∉ video →
      digits ≠ [] → digits.all (·.isDigit) = true → '/' ∉ ext → '.' ∉ ext →
      parse_frame_path ⟨(root ++ '/' :: video) ++ '/' ::
          (("frame".data ++ digits) ++ '.' :: ext)⟩ =
        .ok (some (⟨video⟩, digitsToNat digits))) ∧
    (∀ p : String, framePathVideoName p = [] ∨
        ¬((framePathStem p).take 5 = "frame".data ∧
          ((framePathStem p).drop 5).all (·.isDigit) = true) →
      parse_frame_path p = .ok none) ∧
    (∀ root video ext : List Char, video ≠ [] → '/' ∉ video →
      '/' ∉ ext → '.' ∉ ext →
      parse_frame_path ⟨(root ++ '/' :: video) ++ '/' ::
          ("frame".data ++ '.' :: ext)⟩ = .error .valueError) := by
  refine ⟨?_, ?_, ?_⟩
  · intro root video digits ext hv hvs hdne hd hes hed
    rw [parse_frame_path_wellformed root video digits ext hv hvs hd hes hed,
      if_neg hdne]
  · intro p hp
    rw [parse_frame_path]
    rcases hp with hp | hp
    · rw [if_pos hp]
    · by_cases hv : framePathVideoName p = []
      · rw [if_pos hv]
      · rw [if_neg hv, if_neg hp]
  · intro root video ext hv hvs hes hed
    have h := parse_frame_path_wellformed root video [] ext hv hvs rfl hes hed
    simpa using h

/-- C3 witness: the three parts of the parsing specification instantiated at
`/a/b/video/frame1.png`, `/a/b/video/whatever.png`, and
`/a/b/video/frame.png`. -/
theorem parse_frame_path_spec_witness :
    parse_frame_path ⟨("/a/b".data ++ '/' :: "video".data) ++ '/' ::
        (("frame".data ++ "1".data) ++ '.' :: "png".data)⟩ =
      .ok (some (⟨"video".data⟩, digitsToNat "1".data)) ∧
    parse_frame_path "/a/b/video/whatever.png" = .ok none ∧
    parse_frame_path ⟨("/a/b".data ++ '/' :: "video".data) ++ '/' ::
        ("frame".data ++ '.' :: "png".data)⟩ = .error .valueError :=
  ⟨parse_frame_path_spec.1 "/a/b".data "video".data "1".data "png".data
      (by decide) (by decide) (by decide) (by decide) (by decide) (by decide),
    parse_frame_path_spec.2.1 "/a/b/video/whatever.png" (Or.inr (by decide)),
    parse_frame_path_spec.2.2 "/a/b".data "video".data "png".data
      (by decide) (by decide) (by decide) (by decide)⟩

/-- C3 counterexample: `/a/b/video/frame.png` has a non-empty video segment
but an empty digit run; the claim requires silent exclusion (`None`, no
exception), yet `parse_frame_path` raises a `ValueError` from `int('')`. -/
theorem parse_frame_path_empty_digits_raises :
    parse_frame_path "/a/b/video/frame.png" = .error .valueError ∧
    parse_frame_path "/a/b/video/frame.png" ≠ .ok none := by
  refine ⟨rfl, ?_⟩
  intro h
  rw [show parse_frame_path "/a/b/video/frame.png" = .error .valueError
    from rfl] at h
  exact Except.noConfusion h

/-- C10: `parse_frame_path` discards leading zeros in the digit run: a
zero-padded digit run parses to the same `(video, frame_index)` pair — and
hence the same store key under `frame_path_to_key` — as the unpadded run,
and an all-zero digit run parses to frame index `0`. -/
theorem parse_frame_path_leading_zeros :
    ∀ root video digits ext : List Char, ∀ k : Nat, video ≠ [] →
      '/' ∉ video → digits ≠ [] → digits.all (·.isDigit) = true →
      '/' ∉ ext → '.' ∉ ext →
      parse_frame_path ⟨(root ++ '/' :: video) ++ '/' ::
          (("frame".data ++ (List.replicate k '0' ++ digits)) ++ '.' :: ext)⟩ =
        .ok (some (⟨video⟩, digitsToNat digits)) ∧
      frame_path_to_key ⟨(root ++ '/' :: video) ++ '/' ::
          (("frame".data ++ (List.replicate k '0' ++ digits)) ++ '.' :: ext)⟩ =
        frame_path_to_key ⟨(root ++ '/' :: video) ++ '/' ::
          (("frame".data ++ digits) ++ '.' :: ext)⟩ ∧
      parse_frame_path ⟨(root ++ '/' :: video) ++ '/' ::
          (("frame".data ++ List.replicate (k + 1) '0') ++ '.' :: ext)⟩ =
        .ok (some (⟨video⟩, 0)) := by
  intro root video digits ext k hv hvs hdne hd hes hed
  have hdigchar : ∀ c ∈ digits, c.isDigit = true := List.all_eq_true.mp hd
  have hpad : (List.replicate k '0' ++ digits).all (·.isDigit) = true := by
    apply List.all_eq_true.mpr
    intro c hc
    rcases List.mem_append.mp hc with hc | hc
    · rw [List.eq_of_mem_replicate hc]; decide
    · exact hdigchar c hc
  have hpadne : List.replicate k '0' ++ digits ≠ [] := by
    simp [hdne]
  have hzeros : (List.replicate (k + 1) '0').all (·.isDigit) = true := by
    apply List.all_eq_true.mpr
    intro c hc
    rw [List.eq_of_mem_replicate hc]; decide
  have hzerosne : List.replicate (k + 1) '0' ≠ [] := by simp
  have h1 : parse_frame_path ⟨(root ++ '/' :: video) ++ '/' ::
      (("frame".data ++ (List.replicate k '0' ++ digits)) ++ '.' :: ext)⟩ =
      .ok (some (⟨video⟩, digitsToNat digits)) := by
    rw [parse_frame_path_wellformed root video _ ext hv hvs hpad hes hed,
      if_neg hpadne, digitsToNat_replicate_zero_append]
  have h2 : parse_frame_path ⟨(root ++ '/' :: video) ++ '/' ::
      (("frame".data ++ digits) ++ '.' :: ext)⟩ =
      .ok (some (⟨video⟩, digitsToNat digits)) := by
    rw [parse_frame_path_wellformed root video digits ext hv hvs hd hes hed,
      if_neg hdne]
  refine ⟨h1, ?_, ?_⟩
  · rw [frame_path_to_key, frame_path_to_key, h1, h2]
  · rw [parse_frame_path_wellformed root video _ ext hv hvs hzeros hes hed,
      if_neg hzerosne, digitsToNat_replicate_zero]

/-- C10 witness: zero padding at `/a/b/video/frame01.png` versus
`/a/b/video/frame1.png`, and the all-zero run `/a/b/video/frame00.png`. -/
theorem parse_frame_path_leading_zeros_witness :
    parse_frame_path ⟨("/a/b".data ++ '/' :: "video".data) ++ '/' ::
        (("frame".data ++ (List.replicate 1 '0' ++ "1".data)) ++ '.' ::
          "png".data)⟩ =
      .ok (some (⟨"video".data⟩, digitsToNat "1".data)) ∧
    frame_path_to_key ⟨("/a/b".data ++ '/' :: "video".data) ++ '/' ::
        (("frame".data ++ (List.replicate 1 '0' ++ "1".data)) ++ '.' ::
          "png".data)⟩ =
      frame_path_to_key ⟨("/a/b".data ++ '/' :: "video".data) ++ '/' ::
        (("frame".data ++ "1".data) ++ '.' :: "png".data)⟩ ∧
    parse_frame_path ⟨("/a/b".data ++ '/' :: "video".data) ++ '/' ::
        (("frame".data ++ List.replicate (1 + 1) '0') ++ '.' :: "png".data)⟩ =
      .ok (some (⟨"video".data⟩, 0)) :=
  parse_frame_path_leading_zeros "/a/b".data "video".data "1".data "png".data
    1 (by decide) (by decide) (by decide) (by decide) (by decide) (by decide)

/-- Membership in Python 2's `range(n)` over ℤ. -/
theorem mem_intRange (n : Nat) (i : ℤ) :
    i ∈ intRange n ↔ 0 ≤ i ∧ i < n := by
  simp only [intRange, List.mem_map, List.mem_range]
  constructor
  · rintro ⟨m, hm, rfl⟩
    constructor <;> omega
  · rintro ⟨h0, hn⟩
    exact ⟨i.toNat, by omega, by omega⟩

/-- Python `range(n)` is sorted. -/
theorem intRange_sorted (n : Nat) : (intRange n).Sorted (· ≤ ·) := by
  rw [intRange, List.Sorted, List.pairwise_map]
  exact (List.sorted_le_range n).imp (fun h => by exact_mod_cast h)

/-- Python `range(n)` has no duplicates. -/
theorem intRange_nodup (n : Nat) : (intRange n).Nodup :=
  (List.nodup_range n).map (fun a b h => by omega)

/-- Python `range(n)` has `n` elements. -/
theorem intRange_length (n : Nat) : (intRange n).length = n := by
  simp [intRange]

/-- The `assert` of `load_label_ids` holds exactly when the value list's
members are exactly the dense integer range `{0, ..., N-1}` for `N` the
number of values. -/
theorem sortInts_eq_intRange_iff (l : List Int) :
    sortInts l = intRange l.length ↔
      (∀ i : ℤ, i ∈ l ↔ 0 ≤ i ∧ i < l.length) := by
  constructor
  · intro h i
    have hperm : List.Perm l (intRange l.length) := by
      rw [← h]
      exact (List.perm_insertionSort _ l).symm
    exact hperm.mem_iff.trans (mem_intRange _ _)
  · intro h
    have hsub : intRange l.length ⊆ l := fun i hi =>
      (h i).mpr ((mem_intRange _ _).mp hi)
    have hperm : List.Perm (intRange l.length) l :=
      ((intRange_nodup _).subperm hsub).perm_of_length_le
        (by rw [intRange_length])
    exact List.eq_of_perm_of_sorted
      ((List.perm_insertionSort _ l).trans hperm.symm)
      (List.sorted_insertionSort _ _) (intRange_sorted _)

/-- Building the dict from catalog lines with pairwise-distinct labels keeps
every line, in order, with the id adjustment applied. -/
theorem labelDict_fresh_keys (entries : List (Int × String))
    (one_indexed : Bool) (h : (entries.map (·.2)).Nodup) :
    labelDict entries one_indexed =
      entries.map (fun e => (e.2, if one_indexed then e.1 - 1 else e.1)) := by
  suffices haux : ∀ (es : List (Int × String)) (acc : List (String × Int)),
      (es.map (·.2)).Nodup →
      (∀ k ∈ es.map (·.2), acc.any (·.1 = k) = false) →
      es.foldl (fun d e =>
        pyDictInsert d e.2 (if one_indexed then e.1 - 1 else e.1)) acc =
        acc ++ es.map (fun e => (e.2, if one_indexed then e.1 - 1 else e.1)) by
    have := haux entries [] h (by simp)
    simpa [labelDict] using this
  intro es
  induction es with
  | nil => intro acc _ _; simp
  | cons e es ih =>
    intro acc hnd hfresh
    have hhead : acc.any (·.1 = e.2) = false :=
      hfresh e.2 (by simp)
    have hstep : pyDictInsert acc e.2
        (if one_indexed then e.1 - 1 else e.1) =
        acc ++ [(e.2, if one_indexed then e.1 - 1 else e.1)] := by
      rw [pyDictInsert, hhead]
      simp
    rw [List.map_cons] at hnd
    have hnotin : e.2 ∉ es.map (·.2) := (List.nodup_cons.mp hnd).1
    have hrest : ∀ k ∈ es.map (·.2),
        (acc ++ [(e.2, if one_indexed then e.1 - 1 else e.1)]).any
          (·.1 = k) = false := by
      intro k hk
      rw [List.any_append]
      have h1 : acc.any (·.1 = k) = false := hfresh k (by simp [hk])
      have h2 : ([(e.2, if one_indexed then e.1 - 1 else e.1)]).any
          (·.1 = k) = false := by
        simp only [List.any_cons, List.any_nil, Bool.or_false]
        exact decide_eq_false (fun he => hnotin (he ▸ hk))
      rw [h1, h2]
      rfl
    rw [List.foldl_cons, hstep, ih _ (List.nodup_cons.mp hnd).2 hrest]
    simp

/-- C4: `load_label_ids` fails (with `AssertionError`) iff the id multiset
after the one-indexed adjustment is not exactly the dense range
`{0, ..., N-1}` for `N` the number of stored categories; and a catalog whose
ids are the one-indexed range `{1, ..., N}` over distinct labels loads
successfully under the one-indexed adjustment. -/
theorem load_label_ids_dense_range :
    (∀ (entries : List (Int × String)) (one_indexed : Bool),
      (∃ e, load_label_ids entries one_indexed = .error e) ↔
        ¬ (∀ i : ℤ, i ∈ (labelDict entries one_indexed).map (·.2) ↔
            0 ≤ i ∧ i < ((labelDict entries one_indexed).length : ℤ))) ∧
    (∀ labels : List String, labels.Nodup →
      load_label_ids (oneIndexedCatalog labels) true =
        .ok (labelDict (oneIndexedCatalog labels) true)) := by
  have hC : ∀ (entries : List (Int × String)) (one_indexed : Bool),
      (sortInts ((labelDict entries one_indexed).map (·.2)) =
        intRange (labelDict entries one_indexed).length) ↔
      (∀ i : ℤ, i ∈ (labelDict entries one_indexed).map (·.2) ↔
        0 ≤ i ∧ i < ((labelDict entries one_indexed).length : ℤ)) := by
    intro entries one_indexed
    have hlen : (labelDict entries one_indexed).length =
        ((labelDict entries one_indexed).map (·.2)).length := by simp
    rw [hlen]
    exact sortInts_eq_intRange_iff _
  constructor
  · intro entries one_indexed
    constructor
    · rintro ⟨e, he⟩ hP
      rw [load_label_ids] at he
      rw [if_pos ((hC entries one_indexed).mpr hP)] at he
      exact Except.noConfusion he
    · intro hP
      refine ⟨.assertionError, ?_⟩
      rw [load_label_ids,
        if_neg (fun hc => hP ((hC entries one_indexed).mp hc))]
  · intro labels hnodup
    have hkeys : (oneIndexedCatalog labels).map (·.2) = labels := by
      rw [oneIndexedCatalog, List.map_map]
      exact List.enum_map_snd labels
    have hdict : labelDict (oneIndexedCatalog labels) true =
        (oneIndexedCatalog labels).map (fun e => (e.2, e.1 - 1)) :=
      labelDict_fresh_keys _ true (by rw [hkeys ]; exact hnodup)
    have hvals : (labelDict (oneIndexedCatalog labels) true).map (·.2) =
        intRange labels.length := by
      rw [hdict, List.map_map, oneIndexedCatalog, List.map_map, intRange,
        ← List.enum_map_fst labels, List.map_map]
      apply List.map_congr_left
      intro p _
      simp [Function.comp]
    have hlen : (labelDict (oneIndexedCatalog labels) true).length =
        labels.length := by
      rw [hdict]
      simp [oneIndexedCatalog]
    rw [load_label_ids, if_pos]
    rw [hvals, hlen]
    exact (intRange_sorted _).insertionSort_eq

/-- C4 witness: a two-line catalog with distinct labels and one-indexed ids
`{1, 2}` loads successfully. -/
theorem load_label_ids_dense_range_witness :
    load_label_ids (oneIndexedCatalog ["a", "b"]) true =
      .ok (labelDict (oneIndexedCatalog ["a", "b"]) true) :=
  load_label_ids_dense_range.2 ["a", "b"] (by decide)

/-- The filtered annotation index is empty exactly when no annotation in the
input has the requested category. -/
theorem filter_annotations_empty_iff (anns : List Annotation) (c : String) :
    filter_annotations_by_category (annotationIndex anns) c = [] ↔
      ∀ a ∈ anns, a.category ≠ c := by
  constructor
  · intro h a ha hcat
    have hf : a.filename ∈ (anns.map (·.filename)).dedup :=
      List.mem_dedup.mpr (List.mem_map.mpr ⟨a, ha, rfl⟩)
    have hentry : (a.filename, anns.filter (·.filename = a.filename)) ∈
        annotationIndex anns :=
      List.mem_map.mpr ⟨a.filename, hf, rfl⟩
    have hmem_a : a ∈ (anns.filter
        (·.filename = a.filename)).filter (·.category = c) := by
      rw [List.mem_filter, List.mem_filter]
      refine ⟨⟨ha, ?_⟩, ?_⟩ <;> simp [hcat]
    have hpair : (a.filename, (anns.filter
        (·.filename = a.filename)).filter (·.category = c)) ∈
        filter_annotations_by_category (annotationIndex anns) c := by
      rw [filter_annotations_by_category, List.mem_filter]
      refine ⟨List.mem_map.mpr ⟨_, hentry, rfl⟩, ?_⟩
      simp only [Bool.not_eq_true', List.isEmpty_eq_false]
      exact List.ne_nil_of_mem hmem_a
    rw [h] at hpair
    exact absurd hpair (List.not_mem_nil _)
  · intro h
    rw [filter_annotations_by_category, List.filter_eq_nil_iff]
    intro p hp
    rcases List.mem_map.mp hp with ⟨q, hq, rfl⟩
    simp only [Bool.not_eq_true', List.isEmpty_eq_false, ne_eq,
      Decidable.not_not]
    rcases List.mem_map.mp hq with ⟨f, _, rfl⟩
    rw [List.filter_eq_nil_iff]
    intro a haf
    have hmem : a ∈ anns := (List.mem_filter.mp haf).1
    simpa using h a hmem

/-- C6: `load_annotations_json` raises an error iff a filter category is
given and no annotation in the input has that category; on success with a
filter, every file in the returned index has a non-empty annotation list
consisting only of annotations of the requested category. -/
theorem load_annotations_json_filter_spec :
    (∀ (anns : List Annotation) (cat : Option String),
      (∃ e, load_annotations_json anns cat = .error e) ↔
        (∃ c, cat = some c ∧ ∀ a ∈ anns, a.category ≠ c)) ∧
    (∀ (anns : List Annotation) (c : String)
        (idx : List (String × List Annotation)),
      load_annotations_json anns (some c) = .ok idx →
      ∀ p ∈ idx, p.2 ≠ [] ∧ ∀ a ∈ p.2, a.category = c) := by
  constructor
  · intro anns cat
    cases cat with
    | none => simp [load_annotations_json]
    | some c =>
      rw [load_annotations_json]
      by_cases hemp : filter_annotations_by_category
          (annotationIndex anns) c = []
      · rw [if_pos (List.isEmpty_iff.mpr hemp)]
        constructor
        · intro _
          exact ⟨c, rfl, (filter_annotations_empty_iff anns c).mp hemp⟩
        · intro _
          exact ⟨.valueError, rfl⟩
      · rw [if_neg (fun hc => hemp (List.isEmpty_iff.mp hc))]
        constructor
        · rintro ⟨e, he⟩
          exact Except.noConfusion he
        · rintro ⟨c', hc', hall⟩
          rw [Option.some.injEq] at hc'
          subst hc'
          exact absurd ((filter_annotations_empty_iff anns _).mpr hall) hemp
  · intro anns c idx hok p hp
    rw [load_annotations_json] at hok
    by_cases hemp : (filter_annotations_by_category
        (annotationIndex anns) c).isEmpty
    · rw [if_pos hemp] at hok
      exact Except.noConfusion hok
    · rw [if_neg (by simp [hemp])] at hok
      rw [Except.ok.injEq] at hok
      subst hok
      rw [filter_annotations_by_category, List.mem_filter] at hp
      rcases hp with ⟨hmap, hne⟩
      constructor
      · simpa using hne
      · rcases List.mem_map.mp hmap with ⟨q, _, rfl⟩
        intro a ha
        simpa using (List.mem_filter.mp ha).2

/-- C6 witness: the success clause instantiated at one annotation of
category `"run"` filtered by `"run"`. -/
theorem load_annotations_json_filter_spec_witness :
    [ sampleAnnotation] ≠ [] ∧
      ∀ a ∈ [ sampleAnnotation], a.category = "run" :=
  load_annotations_json_filter_spec.2 [ sampleAnnotation] "run"
    [("v", [ sampleAnnotation])] (by rfl) ("v", [ sampleAnnotation]) (by simp)

/-- C7 (amended): supplying exactly one of the resize dimensions fails with
`ValueError` before any image is decoded; supplying both with non-zero
values resizes every decoded frame to exactly `(resize_width,
resize_height)`; supplying neither keeps the original dimensions; and —
contrary to the claim — supplying both where either value is `0` also keeps
the original dimensions, because `load_image` treats `0` as "do not resize"
while the configuration check only distinguishes `None`. -/
theorem resize_config_spec :
    (∀ (w h : Option Int) (imgs : List PyImage), w.isNone ≠ h.isNone →
      mainLoadImages w h imgs = .error .valueError) ∧
    (∀ (wv hv : Int) (imgs : List PyImage), wv ≠ 0 → hv ≠ 0 →
      mainLoadImages (some wv) (some hv) imgs =
        .ok (imgs.map (fun _ => { height := hv, width := wv }))) ∧
    (∀ imgs : List PyImage, mainLoadImages none none imgs = .ok imgs) ∧
    (∀ (wv hv : Int) (imgs : List PyImage), wv = 0 ∨ hv = 0 →
      mainLoadImages (some wv) (some hv) imgs = .ok imgs) := by
  refine ⟨?_, ?_, ?_, ?_⟩
  · intro w h imgs hne
    rw [mainLoadImages, checkResizeArgs, if_pos hne]
  · intro wv hv imgs hw hh
    rw [mainLoadImages, checkResizeArgs, if_neg (by simp)]
    simp [load_image, truthyInt, hw, hh]
  · intro imgs
    rw [mainLoadImages, checkResizeArgs, if_neg (by simp)]
    simp [load_image, truthyInt]
  · intro wv hv imgs h0
    rw [mainLoadImages, checkResizeArgs, if_neg (by simp)]
    rcases h0 with h0 | h0 <;> simp [load_image, truthyInt, h0]

/-- C7 witness: the four clauses instantiated at concrete configurations
and a 4x3 image. -/
theorem resize_config_spec_witness :
    mainLoadImages (some 5) none [{ height := 3, width := 4 }] =
      .error .valueError ∧
    mainLoadImages (some 5) (some 7) [{ height := 3, width := 4 }] =
      .ok [{ height := 7, width := 5 }] ∧
    mainLoadImages none none [{ height := 3, width := 4 }] =
      .ok [{ height := 3, width := 4 }] ∧
    mainLoadImages (some 0) (some 7) [{ height := 3, width := 4 }] =
      .ok [{ height := 3, width := 4 }] :=
  ⟨resize_config_spec.1 (some 5) none _ (by decide),
    resize_config_spec.2.1 5 7 _ (by decide) (by decide),
    resize_config_spec.2.2.1 _,
    resize_config_spec.2.2.2 0 7 _ (Or.inl rfl)⟩

/-- C7 counterexample: with `--resize_width 0 --resize_height 0` both
dimensions are supplied, the configuration check passes, yet the decoded
frame keeps its original `4x3` dimensions instead of being resized to
`(0, 0)` as the claim requires. -/
theorem resize_zero_supplied_not_resized :
    mainLoadImages (some 0) (some 0) [{ height := 3, width := 4 }] =
      .ok [{ height := 3, width := 4 }] ∧
    ({ height := 3, width := 4 } : PyImage).width ≠ 0 := by
  exact ⟨rfl, by decide⟩

/-- C2: evaluating both writer loops on the end-to-end scenario — 2 videos
with 3 and 2 frames (`num_paths = 5`), every frame decoded successfully.
The labeled writer commits exactly the 5 keys `A-1..A-3, B-1..B-2`; the
proto writer increments and tests `num_stored` before dequeuing, so it stops
one item early and commits only the 4 keys `A-1..A-3, B-1`, dropping
`B-2` — contradicting the claim that exactly N records are committed. -/
theorem writer_key_counts :
    (labeledWriterRun (mkLabeledRecord scenarioAnnotations 10 scenarioInfo
        scenarioLabelIds) scenarioQueue 5 []).map (·.map (·.1)) =
      some ["A-1", "A-2", "A-3", "B-1", "B-2"] ∧
    (protoWriterRun (mkVideoFrameRecord scenarioInfo) scenarioQueue 5
        []).map (·.map (·.1)) =
      some ["A-1", "A-2", "A-3", "B-1"] :=
  ⟨rfl, rfl⟩

/-- Overwriting every entry of key `k'` does not change lookups of other
keys. -/
theorem storeLookup_map_overwrite_ne {β : Type} (store : List (String × β))
    (k' k : String) (v : β) (hne : k' ≠ k) :
    storeLookup (store.map (fun p => if p.1 = k' then (k', v) else p)) k =
      storeLookup store k := by
  induction store with
  | nil => rfl
  | cons p rest ih =>
    rw [List.map_cons]
    by_cases hp : p.1 = k'
    · rw [if_pos hp, storeLookup, storeLookup,
        List.find?_cons_of_neg _ (by simp [hne]),
        List.find?_cons_of_neg _ (by simp [hp, hne])]
      exact ih
    · rw [if_neg hp]
      by_cases hpk : p.1 = k
      · rw [storeLookup, storeLookup, List.find?_cons_of_pos _ (by simp [hpk]),
          List.find?_cons_of_pos _ (by simp [hpk])]
      · rw [storeLookup, storeLookup,
          List.find?_cons_of_neg _ (by simp [hpk]),
          List.find?_cons_of_neg _ (by simp [hpk])]
        exact ih

/-- Overwriting every entry of a present key `k'` makes its lookup the new
value. -/
theorem storeLookup_map_overwrite_found {β : Type}
    (store : List (String × β)) (k' : String) (v : β)
    (hany : store.any (·.1 = k') = true) :
    storeLookup (store.map (fun p => if p.1 = k' then (k', v) else p)) k' =
      some v := by
  induction store with
  | nil => simp at hany
  | cons p rest ih =>
    rw [List.map_cons]
    by_cases hp : p.1 = k'
    · rw [if_pos hp, storeLookup, List.find?_cons_of_pos _ (by simp)]
      rfl
    · rw [if_neg hp, storeLookup, List.find?_cons_of_neg _ (by simp [hp])]
      have hrest : rest.any (·.1 = k') = true := by
        rcases List.any_eq_true.mp hany with ⟨x, hx, hxk⟩
        rcases List.mem_cons.mp hx with rfl | hx
        · exact absurd (of_decide_eq_true hxk) hp
        · exact List.any_eq_true.mpr ⟨x, hx, hxk⟩
      exact ih hrest

/-- Lookup after appending one entry. -/
theorem storeLookup_append_single {β : Type} (store : List (String × β))
    (k' k : String) (v : β) :
    storeLookup (store ++ [(k', v)]) k =
      (storeLookup store k).or (if k' = k then some v else none) := by
  simp only [storeLookup, List.find?_append]
  by_cases h : k' = k
  · rw [if_pos h, List.find?_cons_of_pos _ (by simp [h])]
    cases hx : store.find? (fun p => decide (p.1 = k)) <;> simp [h]
  · rw [if_neg h, List.find?_cons_of_neg _ (by simp [h]), List.find?_nil]
    cases hx : store.find? (fun p => decide (p.1 = k)) <;> simp

/-- The fundamental `put` lemma: `put` overwrites exactly key `k'`. -/
theorem storeLookup_storePut {β : Type} (store : List (String × β))
    (k' k : String) (v : β) :
    storeLookup (storePut store k' v) k =
      if k' = k then some v else storeLookup store k := by
  rw [storePut, pyDictInsert]
  by_cases hany : store.any (·.1 = k') = true
  · rw [if_pos hany]
    by_cases h : k' = k
    · rw [if_pos h]
      subst h
      exact storeLookup_map_overwrite_found store k' v hany
    · rw [if_neg h]
      exact storeLookup_map_overwrite_ne store k' k v h
  · rw [if_neg hany, storeLookup_append_single]
    by_cases h : k' = k
    · rw [if_pos h, if_pos h]
      have hnone : storeLookup store k = none := by
        rw [storeLookup, List.find?_eq_none.mpr]
        · rfl
        · intro x hx hxk
          exact hany (List.any_eq_true.mpr ⟨x, hx, by simp [h ▸ of_decide_eq_true hxk]⟩)
      rw [hnone]
      rfl
    · rw [if_neg h, if_neg h, Option.or_none]

/-- Folding the `lastPut` accumulator from an arbitrary start. -/
theorem lastPut_foldl_acc {β : Type} (ws : List (String × β)) (k : String)
    (acc : Option β) :
    ws.foldl (fun a w => if w.1 = k then some w.2 else a) acc =
      (lastPut ws k).or acc := by
  induction ws generalizing acc with
  | nil => rfl
  | cons w ws ih =>
    rw [lastPut, List.foldl_cons, List.foldl_cons, ih, ih]
    cases h : lastPut ws k with
    | some x => rfl
    | none =>
      by_cases hw : w.1 = k <;> simp [hw]

/-- Lookup after a sequence of `put`s: the last written value wins, falling
back to the prior store content. -/
theorem storeLookup_applyPuts {β : Type} (ws : List (String × β))
    (store : List (String × β)) (k : String) :
    storeLookup (applyPuts store ws) k =
      (lastPut ws k).or (storeLookup store k) := by
  induction ws generalizing store with
  | nil => rfl
  | cons w ws ih =>
    have hstep : applyPuts store (w :: ws) =
        applyPuts (storePut store w.1 w.2) ws := rfl
    rw [hstep, ih, storeLookup_storePut]
    have hcons : lastPut (w :: ws) k =
        (lastPut ws k).or (if w.1 = k then some w.2 else none) :=
      lastPut_foldl_acc ws k (if w.1 = k then some w.2 else none)
    rw [hcons]
    cases h : lastPut ws k with
    | some x => rfl
    | none => by_cases hw : w.1 = k <;> simp [hw]

/-- Lemma: `labeledBatch` factors through its `put` sequence. -/
theorem labeledBatch_eq_writes {α β : Type} (mk : α → String × β) :
    ∀ (iters : Nat) (queue : List α) (num_stored num_paths : Nat)
      (store : List (String × β)),
      labeledBatch mk iters queue num_stored num_paths store =
        (labeledBatchWrites mk iters queue num_stored num_paths).map
          (fun r => (applyPuts store r.1, r.2)) := by
  intro iters
  induction iters with
  | zero => intro queue ns np store; rfl
  | succ iters ih =>
    intro queue ns np store
    cases queue with
    | nil => rfl
    | cons item rest =>
      rw [labeledBatch, labeledBatchWrites]
      by_cases hge : ns + 1 ≥ np
      · rw [if_pos hge, if_pos hge]
        rfl
      · rw [if_neg hge, if_neg hge, ih]
        cases labeledBatchWrites mk iters rest (ns + 1) np with
        | none => rfl
        | some r => rfl

/-- Lemma: `writerLoop` factors through the concatenated `put` sequence whenever
its batch does. -/
theorem writerLoop_eq_writes {α β : Type}
    (batch : Nat → List α → Nat → Nat → List (String × β) →
      Option (List (String × β) × List α × Nat × Bool))
    (batchWrites : Nat → List α → Nat → Nat →
      Option (List (String × β) × List α × Nat × Bool))
    (hbatch : ∀ iters queue ns np store, batch iters queue ns np store =
      (batchWrites iters queue ns np).map
        (fun r => (applyPuts store r.1, r.2)))
    (batch_size : Nat) :
    ∀ (fuel : Nat) (queue : List α) (ns np : Nat)
      (store : List (String × β)),
      writerLoop batch batch_size fuel queue ns np store =
        (writerLoopWrites batchWrites batch_size fuel queue ns np).map
          (fun ws => applyPuts store ws) := by
  intro fuel
  induction fuel with
  | zero => intro queue ns np store; rfl
  | succ fuel ih =>
    intro queue ns np store
    rw [writerLoop, writerLoopWrites, hbatch]
    cases hb : batchWrites batch_size queue ns np with
    | none => rfl
    | some r =>
      obtain ⟨ws, queue', ns', loaded⟩ := r
      cases loaded with
      | true => rfl
      | false =>
        show writerLoop batch batch_size fuel queue' ns' np
            (applyPuts store ws) = _
        rw [ih]
        show Option.map (fun t => applyPuts (applyPuts store ws) t)
            (writerLoopWrites batchWrites batch_size fuel queue' ns' np) =
          Option.map (fun t => applyPuts store t)
            (Option.map (fun tail => ws ++ tail)
              (writerLoopWrites batchWrites batch_size fuel queue' ns' np))
        cases writerLoopWrites batchWrites batch_size fuel queue' ns' np with
        | none => rfl
        | some tail =>
          show some (applyPuts (applyPuts store ws) tail) =
            some (applyPuts store (ws ++ tail))
          have happ : applyPuts store (ws ++ tail) =
              applyPuts (applyPuts store ws) tail := by
            simp [applyPuts, List.foldl_append]
          rw [happ]

/-- The labeled writer run factors through its `put` sequence. -/
theorem labeledWriterRun_eq_writes {α β : Type} (mk : α → String × β)
    (queue : List α) (num_paths : Nat) (store : List (String × β)) :
    labeledWriterRun mk queue num_paths store =
      (labeledRunWrites mk queue num_paths).map
        (fun ws => applyPuts store ws) :=
  writerLoop_eq_writes (labeledBatch mk) (labeledBatchWrites mk)
    (fun iters q ns np s => labeledBatch_eq_writes mk iters q ns np s)
    10000 (num_paths + 1) queue 0 num_paths store

/-- C5: the labeled ingestion is idempotent: the `put` sequence of a run is
a deterministic function of the inputs, so running the same ingestion a
second time on the store produced by the first run leaves every key bound
to the same payload as after the single run (re-putting an identical
key/value is a no-op for lookups). -/
theorem labeled_run_idempotent {α β : Type} (mk : α → String × β)
    (queue : List α) (num_paths : Nat)
    (s s' : List (String × β))
    (h1 : labeledWriterRun mk queue num_paths [] = some s)
    (h2 : labeledWriterRun mk queue num_paths s = some s') :
    ∀ k, storeLookup s' k = storeLookup s k := by
  intro k
  rw [labeledWriterRun_eq_writes] at h1 h2
  cases hw : labeledRunWrites mk queue num_paths with
  | none => rw [hw] at h1; exact Option.noConfusion h1
  | some ws =>
    rw [hw] at h1 h2
    have h1' : applyPuts [] ws = s := by simpa using h1
    have h2' : applyPuts s ws = s' := by simpa using h2
    subst h1'
    subst h2'
    rw [storeLookup_applyPuts, storeLookup_applyPuts]
    cases hl : lastPut ws k with
    | some v => rfl
    | none => rfl

/-- C5 witness: ingesting one record twice leaves the store unchanged. -/
theorem labeled_run_idempotent_witness :
    storeLookup [("A-1", (0 : Nat))] "A-1" =
      storeLookup [("A-1", (0 : Nat))] "A-1" :=
  labeled_run_idempotent (fun p => (p, (0 : Nat))) ["A-1"] 1
    [("A-1", 0)] [("A-1", 0)] rfl rfl "A-1"

/-- C8 (amended): the writers perform NO existing-key check: every record is
written unconditionally, so the final binding of any written key is the last
value put for it during the run, regardless of what the store previously
held at that key (last-write-wins overwrite). -/
theorem labeled_writer_unconditional_put {α β : Type} (mk : α → String × β)
    (queue : List α) (num_paths : Nat)
    (init s : List (String × β)) (ws : List (String × β))
    (k : String) (v : β)
    (hrun : labeledWriterRun mk queue num_paths init = some s)
    (hws : labeledRunWrites mk queue num_paths = some ws)
    (hlast : lastPut ws k = some v) :
    storeLookup s k = some v := by
  rw [labeledWriterRun_eq_writes, hws] at hrun
  have hrun' : applyPuts init ws = s := by simpa using hrun
  subst hrun'
  rw [storeLookup_applyPuts, hlast]
  rfl

/-- C8 witness: a run that writes `("A-1", 2)` over a store already holding
`("A-1", 1)` ends with `A-1` bound to the newly written `2`. -/
theorem labeled_writer_unconditional_put_witness :
    storeLookup (List.map
        (fun p => if p.1 = "A-1" then ("A-1", 2) else p)
        [("A-1", (1 : Nat))]) "A-1" = some 2 :=
  labeled_writer_unconditional_put (fun (_ : Unit) => ("A-1", (2 : Nat)))
    [()] 1 [("A-1", 1)] _ [("A-1", 2)] "A-1" 2 rfl rfl rfl

/-- C8 counterexample: the claim's existing-key check (skip re-writing a key
that is already present) does not happen: with `("A-1", 1)` already in the
store, the writer still re-writes `A-1`, and the final value is the new `2`,
not the pre-existing `1`. -/
theorem labeled_writer_overwrites_existing_key :
    labeledWriterRun (fun (_ : Unit) => ("A-1", (2 : Nat))) [()] 1
        [("A-1", 1)] = some [("A-1", 2)] ∧
    storeLookup [("A-1", (1 : Nat))] "A-1" = some 1 ∧
    storeLookup [("A-1", (2 : Nat))] "A-1" ≠ some 1 := by
  refine ⟨rfl, rfl, ?_⟩
  intro h
  rw [show storeLookup [("A-1", (2 : Nat))] "A-1" = some 2 from rfl] at h
  rw [Option.some.injEq] at h
  simp at h

/-- C9: `frames_already_dumped` returns `True` iff the info marker exists,
records the requested frames-per-second and the absolute source video path,
and every expected output frame (one per expected index, at the detected 0-
or 1-indexed offset) exists on disk. -/
theorem frames_already_dumped_iff (st : DumpState) (video_path : String)
    (fps duration : ℚ) :
    frames_already_dumped st video_path fps duration = true ↔
      ∃ info, st.info_file = some info ∧ info.1 = fps ∧
        info.2 = st.abspath video_path ∧
        ∀ i < expectedFrameCount fps duration,
          st.frame_exists (i + frameOffset st) = true := by
  rw [frames_already_dumped]
  split
  next heq =>
    simp [heq]
  next info heq =>
    rw [heq]
    by_cases hvalid : info.1 = fps ∧ info.2 = st.abspath video_path
    · rw [if_pos hvalid]
      simp only [Option.some.injEq, List.isEmpty_iff,
        List.filter_eq_nil_iff, List.mem_map, List.mem_range]
      constructor
      · intro h
        refine ⟨info, rfl, hvalid.1, hvalid.2, fun i hi => ?_⟩
        have hh := h (i + frameOffset st) ⟨i, hi, rfl⟩
        simpa using hh
      · rintro ⟨info', rfl, _, _, hall⟩
        rintro x ⟨i, hi, rfl⟩
        simp [hall i hi]
    · rw [if_neg hvalid]
      simp only [Option.some.injEq]
      constructor
      · intro h
        exact absurd h (by simp)
      · rintro ⟨info', rfl, h1, h2, _⟩
        exact absurd ⟨h1, h2⟩ hvalid

/-- C9 witness: the resume check succeeds on the sample state (valid marker
for `/abs/v.mp4` at 1 fps, duration 3, one-indexed frames 1 and 2
present). -/
theorem frames_already_dumped_iff_witness :
    frames_already_dumped sampleDumpState "v.mp4" 1 3 = true := by
  apply (frames_already_dumped_iff sampleDumpState "v.mp4" 1 3).mpr
  refine ⟨(1, "/abs/v.mp4"), rfl, rfl, rfl, ?_⟩
  have hc : expectedFrameCount 1 3 = 2 := by
    have h3 : (⌊(3 : ℚ) * 1⌋ : ℤ) = 3 := by norm_num
    rw [expectedFrameCount, h3]
    rfl
  rw [hc]
  decide

end VideoTools
